import Mathlib

deriving instance DecidableEq for Except

/-!
Verification development for the AI-Trader crypto trading core.

This file shallowly embeds the position-ledger and order-settlement code of
the repository (src/tools/crypto/position_tools.py, src/tools/crypto/ccxt_client.py,
src/agent_tools/tool_trade_crypto.py) and proves or refutes the frozen claims
about it.  Python floats are modelled as exact rationals, Python dicts mapping
symbols to quantities as insertion-ordered association lists, the newline-
delimited ledger file as a list of raw lines (blank, unparseable, or a parsed
record), and raised exceptions as the error case of Except.
-/

namespace AITrader

/-! ### ASCII string helpers

Python's str.lower / str.upper restricted to ASCII, which is all the code
applies them to (trade-mode names and ccxt pair symbols).  Implemented over
the character list so that concrete instances reduce in the kernel. -/

/-- ASCII lower-casing of one character (Python str.lower on ASCII input). -/
def lowerChar (c : Char) : Char :=
  if 'A' ≤ c ∧ c ≤ 'Z' then Char.ofNat (c.toNat + 32) else c

/-- ASCII lower-casing of a string. -/
def strLower (s : String) : String := String.mk (s.data.map lowerChar)

/-- ASCII upper-casing of one character (Python str.upper on ASCII input). -/
def upperChar (c : Char) : Char :=
  if 'a' ≤ c ∧ c ≤ 'z' then Char.ofNat (c.toNat - 32) else c

/-- ASCII upper-casing of a string. -/
def strUpper (s : String) : String := String.mk (s.data.map upperChar)

/-- Python `x or default` on an optional string: a missing or empty string is
falsy and selects the default. -/
def orDefault (x : Option String) (d : String) : String :=
  match x with
  | none => d
  | some s => if s = "" then d else s

/-! ### Date arithmetic

Embeds `get_yesterday_date` from src/tools/crypto/price_tools.py:
`datetime.strptime(today_date, "%Y-%m-%d")` followed by `- timedelta(days=1)`
and `strftime("%Y-%m-%d")`.  A parse failure (or stepping below Python's
`datetime.MINYEAR`) is an exception, modelled as `none`. -/

/-- Character of a single decimal digit. -/
def digitChar (n : Nat) : Char := Char.ofNat (48 + n)

/-- Decimal digits of a natural number, fuel-indexed for structural recursion. -/
def natDigits : Nat → Nat → List Char
  | 0, _ => []
  | fuel + 1, n => if n < 10 then [digitChar n] else natDigits fuel (n / 10) ++ [digitChar (n % 10)]

/-- Decimal rendering of a natural number. -/
def natStr (n : Nat) : String := String.mk (natDigits (n + 1) n)

/-- Zero-padded two-digit rendering (strftime %m / %d). -/
def pad2 (n : Nat) : String := if n < 10 then "0" ++ natStr n else natStr n

/-- Zero-padded four-digit rendering (strftime %Y). -/
def pad4 (n : Nat) : String :=
  if n < 10 then "000" ++ natStr n
  else if n < 100 then "00" ++ natStr n
  else if n < 1000 then "0" ++ natStr n
  else natStr n

/-- Split a character list at dashes. -/
def splitOnDash : List Char → List Char → List String
  | [], acc => [String.mk acc.reverse]
  | c :: rest, acc =>
    if c = '-' then String.mk acc.reverse :: splitOnDash rest []
    else splitOnDash rest (c :: acc)

/-- Value of one decimal digit character, if it is one. -/
def charDigit (c : Char) : Option Nat :=
  if '0' ≤ c ∧ c ≤ '9' then some (c.toNat - 48) else none

/-- Parse a nonempty all-digit character list as a natural number. -/
def digitsToNat : List Char → Nat → Option Nat
  | [], acc => some acc
  | c :: rest, acc =>
    match charDigit c with
    | none => none
    | some d => digitsToNat rest (acc * 10 + d)

/-- Parse a decimal string (int parsing as used by strptime fields). -/
def strToNat (s : String) : Option Nat :=
  match s.data with
  | [] => none
  | l => digitsToNat l 0

/-- Gregorian leap-year test. -/
def isLeap (y : Nat) : Bool := (y % 4 == 0 && y % 100 != 0) || y % 400 == 0

/-- Days in a Gregorian month. -/
def daysInMonth (y m : Nat) : Nat :=
  if m = 2 then (if isLeap y then 29 else 28)
  else if m = 4 ∨ m = 6 ∨ m = 9 ∨ m = 11 then 30
  else 31

/-- Parse "YYYY-MM-DD" with the validity checks datetime.strptime performs
(month and day ranges, year within Python's datetime MINYEAR..MAXYEAR). -/
def parseDate (s : String) : Option (Nat × Nat × Nat) :=
  match splitOnDash s.data [] with
  | [ys, ms, ds] =>
    match strToNat ys, strToNat ms, strToNat ds with
    | some y, some m, some d =>
      if 1 ≤ y ∧ y ≤ 9999 ∧ 1 ≤ m ∧ m ≤ 12 ∧ 1 ≤ d ∧ d ≤ daysInMonth y m then
        some (y, m, d)
      else none
    | _, _, _ => none
  | _ => none

/-- The calendar day before `today_date`; `none` models the ValueError raised
by strptime on a malformed date (or OverflowError below year 1). -/
def get_yesterday_date (today_date : String) : Option String :=
  match parseDate today_date with
  | none => none
  | some (y, m, d) =>
    if y = 1 ∧ m = 1 ∧ d = 1 then none
    else
      let ymd : Nat × Nat × Nat :=
        if 2 ≤ d then (y, m, d - 1)
        else if 2 ≤ m then (y, m - 1, daysInMonth y (m - 1))
        else (y - 1, 12, 31)
      some (pad4 ymd.1 ++ "-" ++ pad2 ymd.2.1 ++ "-" ++ pad2 ymd.2.2)

/-! ### Positions

A Python dict from symbol to float quantity, as an insertion-ordered
association list of exact rationals. -/

/-- Position dictionary: symbol to quantity, insertion ordered. -/
abbrev Position := List (String × ℚ)

/-- Python dict.get with default. -/
def posGet : Position → String → ℚ → ℚ
  | [], _, d => d
  | (k', v) :: rest, k, d => if k' = k then v else posGet rest k d

/-- Python dict item assignment: replace in place, or append a new key. -/
def posSet : Position → String → ℚ → Position
  | [], k, v => [(k, v)]
  | (k', v') :: rest, k, v =>
    if k' = k then (k', v) :: rest else (k', v') :: posSet rest k v

/-- Python `key in dict`. -/
def posHas : Position → String → Bool
  | [], _ => false
  | (k', _) :: rest, k => k' = k || posHas rest k

/-- Python dict.setdefault: keep an existing key, else append it. -/
def posSetdefault (p : Position) (k : String) (v : ℚ) : Position :=
  if posHas p k then p else p ++ [(k, v)]

/-! ### Exchange gateway (src/tools/crypto/ccxt_client.py)

The ticker returned by `fetch_ticker` is external input; only the three
fields `get_last_price` reads are modelled, each as `Option`: `none` stands
for an absent key or a JSON null, `some q` for a numeric value. -/

/-- The three ticker fields read by get_last_price. -/
structure Ticker where
  last : Option ℚ
  close : Option ℚ
  infoLastPrice : Option ℚ
deriving DecidableEq, Repr

/-- Python truthiness of an optional number: None and 0 are falsy. -/
def truthy : Option ℚ → Bool
  | none => false
  | some q => decide (q ≠ 0)

/-- Python `a or b` on optional numbers: the first operand if truthy, else
the second operand unchanged. -/
def pyOr (a b : Option ℚ) : Option ℚ := if truthy a then a else b

/-- Embeds get_last_price: resolve
`ticker.get("last") or ticker.get("close") or ticker.get("info", ...).get("lastPrice")`
and raise (`.error`) when the resolved value is None. -/
def get_last_price (t : Ticker) : Except Unit ℚ :=
  match pyOr (pyOr t.last t.close) t.infoLastPrice with
  | none => .error ()
  | some q => .ok q

/-- Env default CRYPTO_PAIR. -/
def DEFAULT_PAIR : String := "BTC/USDT"

/-- Env default CRYPTO_TRADE_MODE. -/
def DEFAULT_MODE : String := "paper"

/-- Env default CRYPTO_BASE_SYMBOL (tool_trade_crypto.py BASE_SYMBOL). -/
def BASE_SYMBOL : String := "BTC"

/-- The paper-mode fill dict synthesized by execute_order. -/
structure FillRecord where
  mode : String
  symbol : String
  side : String
  amount : ℚ
  fill_price : ℚ
  order_type : String
  timestamp : ℚ
deriving DecidableEq, Repr

/-- Opaque raw response of a live venue (exchange.create_order). -/
abbrev VenueOrder := String

/-- Result dict of execute_order: a paper fill, or a live routing that wraps
the raw venue response (the live dict carries no fill_price key). -/
inductive OrderResult where
  | paper (f : FillRecord)
  | live (symbol : String) (side : String) (amount : ℚ) (order : VenueOrder)
deriving DecidableEq, Repr

/-- Embeds execute_order.  `now` is the reading of time.time(), `venue` the
response the live venue would give; both are external inputs.  A missing
explicit price resolves through get_last_price and its failure propagates. -/
def execute_order (side : String) (amount : ℚ) (symbol : Option String)
    (order_type : String) (price : Option ℚ) (mode : Option String)
    (ticker : Ticker) (now : ℚ) (venue : VenueOrder) : Except Unit OrderResult :=
  let pair := strUpper (orDefault symbol DEFAULT_PAIR)
  let trade_mode := strLower (orDefault mode DEFAULT_MODE)
  match (match price with | some p => Except.ok p | none => get_last_price ticker) with
  | .error e => .error e
  | .ok px =>
    if trade_mode ≠ "live" then
      .ok (.paper { mode := "paper", symbol := pair, side := side, amount := amount,
                    fill_price := px, order_type := order_type, timestamp := now })
    else
      .ok (.live pair side amount venue)

/-! ### Position ledger (src/tools/crypto/position_tools.py)

One ledger record per line.  The embedded Record holds what the scan reads
from a parsed line: `record.get("date")` (None when absent), `record.get("id", -1)`
already defaulted, `record.get("positions", ...)` already defaulted, plus the
action and order payloads written by the trading tool. -/

/-- The this_action payload of a ledger record. -/
structure ActionInfo where
  action : String
  symbol : String
  amount : ℚ
  fill_price : Option ℚ
deriving DecidableEq, Repr

/-- A parsed ledger record. -/
structure Record where
  date : Option String
  id : Int
  positions : Position
  this_action : Option ActionInfo
  order : Option FillRecord
deriving DecidableEq, Repr

/-- One raw line of the position.jsonl file: blank (skipped by the scan),
unparseable (json.loads raises), or a parsed record. -/
inductive RawLine where
  | blank
  | corrupt
  | ok (r : Record)
deriving DecidableEq, Repr

/-- The ledger file content, line by line.  The empty list also stands for a
missing file, which get_latest_position treats the same way for any date it
can parse. -/
abbrev Ledger := List RawLine

/-- One scanning loop of get_latest_position: skip blank lines, raise on an
unparseable line, and keep the positions of the record with the largest id
among records whose date equals `target`. -/
def scanLoop (target : String) : Ledger → Position → Int → Except Unit (Position × Int)
  | [], pos, mx => .ok (pos, mx)
  | .blank :: rest, pos, mx => scanLoop target rest pos mx
  | .corrupt :: _, _, _ => .error ()
  | .ok r :: rest, pos, mx =>
    if r.date = some target then
      (if mx < r.id then scanLoop target rest r.positions r.id
       else scanLoop target rest pos mx)
    else scanLoop target rest pos mx

/-- Embeds get_latest_position: scan for the requested date, and if no record
with id above -1 was found, rescan for the immediately preceding calendar
day, whose computation can itself raise on a malformed date. -/
def get_latest_position (today_date : String) (ledger : Ledger) :
    Except Unit (Position × Int) :=
  match scanLoop today_date ledger [] (-1) with
  | .error e => .error e
  | .ok (pos, mx) =>
    if 0 ≤ mx then .ok (pos, mx)
    else
      match get_yesterday_date today_date with
      | none => .error ()
      | some prev => scanLoop prev ledger [] (-1)

/-- Embeds get_today_init_position: the latest position of the previous day. -/
def get_today_init_position (today_date : String) (ledger : Ledger) :
    Except Unit Position :=
  match get_yesterday_date today_date with
  | none => .error ()
  | some prev =>
    match get_latest_position prev ledger with
    | .error e => .error e
    | .ok (pos, _) => .ok pos

/-- Embeds add_no_trade_record: append a no_trade record carrying the current
latest snapshot unchanged and the next id for the day. -/
def add_no_trade_record (today_date : String) (ledger : Ledger) :
    Except Unit Ledger :=
  match get_latest_position today_date ledger with
  | .error e => .error e
  | .ok (positions, max_id) =>
    .ok (ledger ++ [.ok { date := some today_date, id := max_id + 1,
                          this_action := some { action := "no_trade", symbol := "",
                                                amount := 0, fill_price := none },
                          positions := positions, order := none }])

/-! ### Settlement engine (src/agent_tools/tool_trade_crypto.py)

`_run_order` runs with the per-agent flock held for its whole body; the
result pairs the returned dict with the ledger content after the call.  The
`write_config_value("IF_TRADE", True)` side effect touches separate config
state and is not part of the modelled state. -/

/-- Embeds _ensure_symbol: setdefault the traded symbol, then CASH, to 0. -/
def _ensure_symbol (p : Position) : Position :=
  posSetdefault (posSetdefault p BASE_SYMBOL 0) "CASH" 0

/-- Return value of _run_order and of the buy/sell tools: the new position on
success, or one of the structured error dicts. -/
inductive RunResult where
  | ok (positions : Position)
  | insufficientCash (required_cash : ℚ) (cash_available : ℚ)
  | insufficientBTC (holding : ℚ) (attempted : ℚ)
  | invalidAmount
deriving DecidableEq, Repr

/-- Embeds _run_order.  External inputs: the ticker behind get_last_price,
the time.time() reading `now`, and the would-be venue response `venue`. -/
def _run_order (side : String) (amount : ℚ) (today_date : String)
    (ticker : Ticker) (now : ℚ) (venue : VenueOrder) (ledger : Ledger) :
    Except Unit (RunResult × Ledger) :=
  match get_latest_position today_date ledger with
  | .error e => .error e
  | .ok (positions0, last_id) =>
    let positions0 := if positions0 = [] then [("CASH", (0 : ℚ)), (BASE_SYMBOL, (0 : ℚ))] else positions0
    let positions := _ensure_symbol positions0
    match get_last_price ticker with
    | .error e => .error e
    | .ok px =>
      match execute_order side amount none "market" none none ticker now venue with
      | .error e => .error e
      | .ok order =>
        let fill_price := match order with
          | .paper f => f.fill_price
          | .live _ _ _ _ => px
        let step : RunResult ⊕ Position :=
          if side = "buy" then
            let cost := fill_price * amount
            let cash := posGet positions "CASH" 0 - cost
            if cash < 0 then
              Sum.inl (.insufficientCash cost (posGet positions "CASH" 0))
            else
              let positions := posSet positions "CASH" cash
              let positions := posSet positions BASE_SYMBOL (posGet positions BASE_SYMBOL 0 + amount)
              Sum.inr positions
          else
            let holding := posGet positions BASE_SYMBOL 0
            if holding < amount then
              Sum.inl (.insufficientBTC holding amount)
            else
              let proceeds := fill_price * amount
              let positions := posSet positions BASE_SYMBOL (holding - amount)
              let positions := posSet positions "CASH" (posGet positions "CASH" 0 + proceeds)
              Sum.inr positions
        match step with
        | Sum.inl rej => .ok (rej, ledger)
        | Sum.inr positions =>
          .ok (.ok positions,
               ledger ++ [.ok { date := some today_date, id := last_id + 1,
                                this_action := some { action := side, symbol := BASE_SYMBOL,
                                                      amount := amount,
                                                      fill_price := some fill_price },
                                positions := positions,
                                order := match order with
                                  | .paper f => some f
                                  | .live _ _ _ _ => none }])

/-- Embeds the buy tool (SIGNATURE and TODAY_DATE assumed configured; the
agent signature selects which ledger is passed). -/
def buy (amount : ℚ) (today_date : String) (ticker : Ticker) (now : ℚ)
    (venue : VenueOrder) (ledger : Ledger) : Except Unit (RunResult × Ledger) :=
  if amount ≤ 0 then .ok (.invalidAmount, ledger)
  else _run_order "buy" amount today_date ticker now venue ledger

/-- Embeds the sell tool. -/
def sell (amount : ℚ) (today_date : String) (ticker : Ticker) (now : ℚ)
    (venue : VenueOrder) (ledger : Ledger) : Except Unit (RunResult × Ledger) :=
  if amount ≤ 0 then .ok (.invalidAmount, ledger)
  else _run_order "sell" amount today_date ticker now venue ledger

/-! ### Derived views of a ledger, used to state the claims. -/

/-- The parseable records of a ledger. -/
def recordsOf (L : Ledger) : List Record :=
  L.filterMap fun l => match l with | .ok r => some r | _ => none

/-- The records carrying a given date, in file order. -/
def recordsOn (d : String) (L : Ledger) : List Record :=
  (recordsOf L).filter fun r => decide (r.date = some d)

/-- The ids of the records carrying a given date, in file order. -/
def idsOn (d : String) (L : Ledger) : List Int :=
  (recordsOn d L).map (fun r => r.id)

/-- The maximum id among records of a date, -1 when there are none. -/
def maxIdOn (d : String) (L : Ledger) : Int :=
  (idsOn d L).foldl max (-1)

/-- No line of the ledger is unparseable. -/
def noCorrupt (L : Ledger) : Prop := RawLine.corrupt ∉ L

/-- The list of consecutive integers s, s+1, ..., s+len-1. -/
def intRange (s : Int) (len : Nat) : List Int :=
  (List.range len).map fun i : Nat => s + (i : Int)

/-! ### Operation sequences over one agent's ledger, for the id invariant.

An operation either settles an order (tool buy/sell reaching _run_order) or
records a no-trade day; on a raised exception the file is untouched. -/

/-- One core operation on a single agent's ledger. -/
inductive Op where
  | settle (side : String) (amount : ℚ) (date : String) (ticker : Ticker)
      (now : ℚ) (venue : VenueOrder)
  | noTrade (date : String)

/-- The date an operation targets. -/
def opDate : Op → String
  | .settle _ _ d _ _ _ => d
  | .noTrade d => d

/-- Effect of one operation on the ledger file: an exception leaves the file
unchanged, a rejection returns without appending, a commit appends. -/
def applyOp (L : Ledger) : Op → Ledger
  | .settle s a d t n v =>
    match _run_order s a d t n v L with
    | .ok (_, L2) => L2
    | .error _ => L
  | .noTrade d =>
    match add_no_trade_record d L with
    | .ok L2 => L2
    | .error _ => L

/-- The ledger produced by a sequence of operations on a fresh agent. -/
def runOps (ops : List Op) : Ledger := ops.foldl applyOp []

/-- The position _run_order works on after seeding an empty snapshot and
ensuring both keys: a derived name for a subterm of _run_order. -/
def loadedPositions (p : Position) : Position :=
  _ensure_symbol (if p = [] then [("CASH", (0 : ℚ)), (BASE_SYMBOL, (0 : ℚ))] else p)

/-- The ledger record a committed paper-mode settlement appends, as a function
of its inputs: a derived name for the payload subterm of _run_order. -/
def tradeRecord (d : String) (i : Int) (side : String) (amt p : ℚ)
    (pos : Position) (now : ℚ) : Record :=
  { date := some d, id := i,
    this_action := some { action := side, symbol := BASE_SYMBOL, amount := amt,
                          fill_price := some p },
    positions := pos,
    order := some { mode := "paper", symbol := "BTC/USDT", side := side, amount := amt,
                    fill_price := p, order_type := "market", timestamp := now } }

/-- Pure content of one scanning pass restricted to the matching records:
what the loop accumulates once blank lines are dropped and dates filtered. -/
def scanFold : List Record → Position → Int → Position × Int
  | [], p, m => (p, m)
  | r :: rs, p, m => if m < r.id then scanFold rs r.positions r.id else scanFold rs p m

/-- Position written by a committed buy, as a function of the loaded
snapshot, fill price and amount: a derived name for the subterm. -/
def buyPositions (pos0 : Position) (p amt : ℚ) : Position :=
  posSet (posSet (loadedPositions pos0) "CASH"
    (posGet (loadedPositions pos0) "CASH" 0 - p * amt)) BASE_SYMBOL
    (posGet (posSet (loadedPositions pos0) "CASH"
      (posGet (loadedPositions pos0) "CASH" 0 - p * amt)) BASE_SYMBOL 0 + amt)

/-- Position written by a committed sell. -/
def sellPositions (pos0 : Position) (p amt : ℚ) : Position :=
  posSet (posSet (loadedPositions pos0) BASE_SYMBOL
    (posGet (loadedPositions pos0) BASE_SYMBOL 0 - amt)) "CASH"
    (posGet (posSet (loadedPositions pos0) BASE_SYMBOL
      (posGet (loadedPositions pos0) BASE_SYMBOL 0 - amt)) "CASH" 0 + p * amt)

/-- The record add_no_trade_record appends. -/
def noTradeRecord (d : String) (i : Int) (pos : Position) : Record :=
  { date := some d, id := i,
    this_action := some { action := "no_trade", symbol := "", amount := 0, fill_price := none },
    positions := pos, order := none }

/-- The invariant of reachable ledgers: no unparseable lines, nonnegative
record ids, and for every date a contiguous id run. -/
def ledgerInv (L : Ledger) : Prop :=
  noCorrupt L ∧ (∀ r ∈ recordsOf L, 0 ≤ r.id) ∧
  ∀ d : String, ∃ (s : Int) (len : Nat), 0 ≤ s ∧ idsOn d L = intRange s len

/-- Status of one settlement thread. -/
inductive TStatus where
  | pending
  | holding
  | done (r : RunResult)
deriving DecidableEq

/-- Shared state of n concurrent buy attempts for one agent. -/
structure Sys (n : Nat) where
  ledger : Ledger
  lock : Option (Fin n)
  status : Fin n → TStatus

/-- One scheduler step: acquire the free per-agent lock, or run the locked
_run_order body and release.  Thread i buys amount `a i`; date, ticker,
clock and venue are shared. -/
inductive Step {n : Nat} (d : String) (a : Fin n → ℚ) (t : Ticker) (now : ℚ)
    (v : VenueOrder) : Sys n → Sys n → Prop
  | acquire {s : Sys n} (i : Fin n) :
      s.lock = none → s.status i = .pending →
      Step d a t now v s
        { s with lock := some i, status := Function.update s.status i .holding }
  | run {s : Sys n} (i : Fin n) (res : RunResult) (L2 : Ledger) :
      s.lock = some i → s.status i = .holding →
      _run_order "buy" (a i) d t now v s.ledger = .ok (res, L2) →
      Step d a t now v s
        { ledger := L2, lock := none,
          status := Function.update s.status i (.done res) }

/-- States reachable from n pending threads over the starting ledger. -/
inductive Reach {n : Nat} (d : String) (a : Fin n → ℚ) (t : Ticker) (now : ℚ)
    (v : VenueOrder) (L0 : Ledger) : Sys n → Prop
  | init : Reach d a t now v L0
      { ledger := L0, lock := none, status := fun _ => .pending }
  | step {s s2 : Sys n} : Reach d a t now v L0 s → Step d a t now v s s2 →
      Reach d a t now v L0 s2

/-- Invariant: the lock marks exactly the holding thread, and either nothing
has committed yet (ledger untouched, nobody done), or exactly one winner has
appended the single settlement record and every other finished thread was
rejected for insufficient cash against the winner's remaining balance. -/
def SysInv {n : Nat} (d : String) (a : Fin n → ℚ) (now : ℚ) (L0 : Ledger)
    (pos0 : Position) (k : Int) (p : ℚ) (s : Sys n) : Prop :=
  (∀ j, s.status j = .holding ↔ s.lock = some j) ∧
  ((s.ledger = L0 ∧ ∀ j r, ¬ s.status j = .done r) ∨
   (∃ w, s.ledger = L0 ++ [.ok (tradeRecord d (k + 1) "buy" (a w) p
        (buyPositions pos0 p (a w)) now)] ∧
      s.status w = .done (.ok (buyPositions pos0 p (a w))) ∧
      ∀ j, j ≠ w → s.status j = .pending ∨ s.status j = .holding ∨
        s.status j = .done (.insufficientCash (p * a j)
          (posGet pos0 "CASH" 0 - p * a w))))

/-- Starting one-record ledger for the C9 witness run. -/
def c9Ledger0 : Ledger :=
  [RawLine.ok { date := some "2024-01-02", id := 0,
                positions := [("CASH", 150), ("BTC", 0)],
                this_action := none, order := none }]

/-- The record the winning thread of the C9 witness run appends. -/
def c9Rec : Record :=
  tradeRecord "2024-01-02" (0 + 1) "buy" 1 100
    (buyPositions [("CASH", 150), ("BTC", 0)] 100 1) 0

/-- Thread statuses after the C9 witness run: thread 0 committed, thread 1
was rejected. -/
def c9Status : Fin 2 → TStatus :=
  Function.update
    (Function.update
      (Function.update
        (Function.update (fun _ => TStatus.pending) 0 TStatus.holding)
        0 (TStatus.done (.ok (buyPositions [("CASH", 150), ("BTC", 0)] 100 1))))
      1 TStatus.holding)
    1 (TStatus.done (.insufficientCash (100 * 1)
        (posGet [("CASH", 150), ("BTC", 0)] "CASH" 0 - 100 * 1)))


/-! ### Lemmas about position dictionaries -/

theorem posGet_posSet_self (p : Position) (k : String) (v d : ℚ) :
    posGet (posSet p k v) k d = v := by
  induction p with
  | nil => simp [posSet, posGet]
  | cons hd tl ih =>
    obtain ⟨k', v'⟩ := hd
    by_cases h : k' = k <;> simp [posSet, posGet, h, ih]

theorem posGet_posSet_ne (p : Position) {k k2 : String} (h : k ≠ k2) (v d : ℚ) :
    posGet (posSet p k v) k2 d = posGet p k2 d := by
  induction p with
  | nil => simp [posSet, posGet, h]
  | cons hd tl ih =>
    obtain ⟨k', v'⟩ := hd
    by_cases hk : k' = k
    · subst hk; simp [posSet, posGet, h, ih]
    · simp [posSet, posGet, hk, ih]

theorem posGet_append_zero (p : Position) (k k2 : String) :
    posGet (p ++ [(k, (0 : ℚ))]) k2 0 = posGet p k2 0 := by
  induction p with
  | nil => by_cases h : k = k2 <;> simp [posGet, h]
  | cons hd tl ih =>
    obtain ⟨k', v'⟩ := hd
    by_cases h : k' = k2 <;> simp [posGet, h, ih]

theorem posGet_posSetdefault_zero (p : Position) (k k2 : String) :
    posGet (posSetdefault p k 0) k2 0 = posGet p k2 0 := by
  unfold posSetdefault
  split
  · rfl
  · exact posGet_append_zero p k k2

theorem posGet_ensure (p : Position) (k : String) :
    posGet (_ensure_symbol p) k 0 = posGet p k 0 := by
  unfold _ensure_symbol
  rw [posGet_posSetdefault_zero, posGet_posSetdefault_zero]

theorem posGet_loaded (p : Position) (k : String) :
    posGet (loadedPositions p) k 0 = posGet p k 0 := by
  unfold loadedPositions
  rw [posGet_ensure]
  split
  · rename_i h
    subst h
    by_cases h1 : "CASH" = k <;> by_cases h2 : BASE_SYMBOL = k <;>
      simp [posGet, h1, h2]
  · rfl

/-! ### Lemmas about the ledger scan -/

theorem recordsOf_append (L1 L2 : Ledger) :
    recordsOf (L1 ++ L2) = recordsOf L1 ++ recordsOf L2 := by
  unfold recordsOf
  exact List.filterMap_append _ _ _

theorem recordsOn_append (d : String) (L1 L2 : Ledger) :
    recordsOn d (L1 ++ L2) = recordsOn d L1 ++ recordsOn d L2 := by
  unfold recordsOn
  rw [recordsOf_append, List.filter_append]

theorem recordsOn_ok_cons (d : String) (r : Record) (L : Ledger) :
    recordsOn d (.ok r :: L) =
      if r.date = some d then r :: recordsOn d L else recordsOn d L := by
  unfold recordsOn recordsOf
  by_cases h : r.date = some d <;> simp [List.filterMap_cons, h]

theorem recordsOn_blank_cons (d : String) (L : Ledger) :
    recordsOn d (.blank :: L) = recordsOn d L := by
  unfold recordsOn recordsOf
  simp [List.filterMap_cons]

theorem recordsOn_single_ok (d : String) (r : Record) :
    recordsOn d [.ok r] = if r.date = some d then [r] else [] := by
  rw [recordsOn_ok_cons]
  by_cases h : r.date = some d <;> simp [h, recordsOn, recordsOf]

theorem scanLoop_corrupt (t : String) (L : Ledger) (p : Position) (m : Int)
    (h : RawLine.corrupt ∈ L) : scanLoop t L p m = .error () := by
  induction L generalizing p m with
  | nil => cases h
  | cons hd tl ih =>
    cases hd with
    | blank =>
      simp only [List.mem_cons, reduceCtorEq, false_or] at h
      exact ih p m h
    | corrupt => rfl
    | ok r =>
      simp only [List.mem_cons, reduceCtorEq, false_or] at h
      unfold scanLoop
      split <;> [skip; exact ih p m h]
      split <;> exact ih _ _ h

theorem scanLoop_eq_scanFold (L : Ledger) (h : noCorrupt L) (t : String)
    (p : Position) (m : Int) :
    scanLoop t L p m = .ok (scanFold (recordsOn t L) p m) := by
  induction L generalizing p m with
  | nil => simp [scanLoop, recordsOn, recordsOf, scanFold]
  | cons hd tl ih =>
    have htl : noCorrupt tl := by
      intro hc
      exact h (List.mem_cons_of_mem _ hc)
    cases hd with
    | blank =>
      rw [recordsOn_blank_cons]
      exact ih htl p m
    | corrupt => exact absurd (List.mem_cons_self _ _) h
    | ok r =>
      rw [recordsOn_ok_cons]
      unfold scanLoop
      by_cases hd : r.date = some t
      · rw [if_pos hd, if_pos hd]
        simp only [scanFold]
        by_cases hm : m < r.id
        · rw [if_pos hm, if_pos hm]
          exact ih htl _ _
        · rw [if_neg hm, if_neg hm]
          exact ih htl p m
      · rw [if_neg hd, if_neg hd]
        exact ih htl p m

theorem scanLoop_ok_noCorrupt {t : String} {L : Ledger} {p : Position} {m : Int}
    {pm : Position × Int} (h : scanLoop t L p m = .ok pm) : noCorrupt L := by
  intro hc
  rw [scanLoop_corrupt t L p m hc] at h
  cases h

theorem scanFold_append (rs1 rs2 : List Record) (p : Position) (m : Int) :
    scanFold (rs1 ++ rs2) p m =
      scanFold rs2 (scanFold rs1 p m).1 (scanFold rs1 p m).2 := by
  induction rs1 generalizing p m with
  | nil => simp [scanFold]
  | cons r rs ih =>
    simp only [List.cons_append, scanFold]
    by_cases hm : m < r.id
    · rw [if_pos hm, if_pos hm]
      exact ih _ _
    · rw [if_neg hm, if_neg hm]
      exact ih _ _

theorem scanFold_snd (rs : List Record) (p : Position) (m : Int) :
    (scanFold rs p m).2 = (rs.map fun r => r.id).foldl max m := by
  induction rs generalizing p m with
  | nil => simp [scanFold]
  | cons r rs ih =>
    unfold scanFold
    by_cases hm : m < r.id
    · rw [if_pos hm, ih]
      simp [max_eq_right (le_of_lt hm)]
    · rw [if_neg hm, ih]
      simp [max_eq_left (le_of_not_lt hm)]

theorem foldl_max_ge (l : List Int) (m : Int) : m ≤ l.foldl max m := by
  induction l generalizing m with
  | nil => simp
  | cons x xs ih => exact le_trans (le_max_left m x) (ih (max m x))

theorem foldl_max_mem_le (l : List Int) (m : Int) (x : Int) (hx : x ∈ l) :
    x ≤ l.foldl max m := by
  induction l generalizing m with
  | nil => cases hx
  | cons y ys ih =>
    rcases List.mem_cons.mp hx with h | h
    · subst h
      exact le_trans (le_max_right m x) (foldl_max_ge ys (max m x))
    · exact ih (max m y) h

theorem scanFold_snd_ge (rs : List Record) (p : Position) (m : Int) :
    m ≤ (scanFold rs p m).2 := by
  rw [scanFold_snd]
  exact foldl_max_ge _ m

theorem scanFold_cases (rs : List Record) (p : Position) (m : Int) :
    scanFold rs p m = (p, m) ∨
      ∃ r ∈ rs, scanFold rs p m = (r.positions, r.id) := by
  induction rs generalizing p m with
  | nil => exact Or.inl rfl
  | cons r rs ih =>
    unfold scanFold
    by_cases hm : m < r.id
    · rw [if_pos hm]
      rcases ih r.positions r.id with h | ⟨r2, hr2, h⟩
      · exact Or.inr ⟨r, List.mem_cons_self _ _, h⟩
      · exact Or.inr ⟨r2, List.mem_cons_of_mem _ hr2, h⟩
    · rw [if_neg hm]
      rcases ih p m with h | ⟨r2, hr2, h⟩
      · exact Or.inl h
      · exact Or.inr ⟨r2, List.mem_cons_of_mem _ hr2, h⟩

/-! ### Characterization of get_latest_position -/

theorem glp_of_noCorrupt (d : String) (L : Ledger) (h : noCorrupt L) :
    get_latest_position d L =
      (if 0 ≤ (scanFold (recordsOn d L) [] (-1)).2 then
        .ok (scanFold (recordsOn d L) [] (-1))
       else
        match get_yesterday_date d with
        | none => .error ()
        | some prev => .ok (scanFold (recordsOn prev L) [] (-1))) := by
  unfold get_latest_position
  simp only [scanLoop_eq_scanFold L h]

theorem glp_today (d : String) (L : Ledger) (h : noCorrupt L)
    (h0 : 0 ≤ (scanFold (recordsOn d L) [] (-1)).2) :
    get_latest_position d L = .ok (scanFold (recordsOn d L) [] (-1)) := by
  rw [glp_of_noCorrupt d L h, if_pos h0]

theorem glp_prev (d prev : String) (L : Ledger) (h : noCorrupt L)
    (h0 : ¬ 0 ≤ (scanFold (recordsOn d L) [] (-1)).2)
    (hy : get_yesterday_date d = some prev) :
    get_latest_position d L = .ok (scanFold (recordsOn prev L) [] (-1)) := by
  rw [glp_of_noCorrupt d L h, if_neg h0, hy]

theorem glp_ok_noCorrupt {d : String} {L : Ledger} {pm : Position × Int}
    (h : get_latest_position d L = .ok pm) : noCorrupt L := by
  unfold get_latest_position at h
  cases hs : scanLoop d L [] (-1) with
  | error e => rw [hs] at h; cases h
  | ok pm2 => exact scanLoop_ok_noCorrupt hs

/-- Full inversion of a successful get_latest_position call. -/
theorem glp_ok_inv {d : String} {L : Ledger} {p : Position} {m : Int}
    (h : get_latest_position d L = .ok (p, m)) :
    noCorrupt L ∧
      ((0 ≤ (scanFold (recordsOn d L) [] (-1)).2 ∧
          (p, m) = scanFold (recordsOn d L) [] (-1)) ∨
       (¬ 0 ≤ (scanFold (recordsOn d L) [] (-1)).2 ∧
          ∃ prev, get_yesterday_date d = some prev ∧
            (p, m) = scanFold (recordsOn prev L) [] (-1))) := by
  have hnc := glp_ok_noCorrupt h
  refine ⟨hnc, ?_⟩
  rw [glp_of_noCorrupt d L hnc] at h
  by_cases h0 : 0 ≤ (scanFold (recordsOn d L) [] (-1)).2
  · rw [if_pos h0] at h
    exact Or.inl ⟨h0, (Except.ok.inj h).symm⟩
  · rw [if_neg h0] at h
    cases hy : get_yesterday_date d with
    | none => rw [hy] at h; cases h
    | some prev =>
      rw [hy] at h
      exact Or.inr ⟨h0, prev, rfl, (Except.ok.inj h).symm⟩

theorem glp_snd_ge {d : String} {L : Ledger} {p : Position} {m : Int}
    (h : get_latest_position d L = .ok (p, m)) : -1 ≤ m := by
  rcases (glp_ok_inv h).2 with ⟨h0, heq⟩ | ⟨_, prev, _, heq⟩
  · have := congrArg Prod.snd heq
    simp only at this
    omega
  · have := congrArg Prod.snd heq
    simp only at this
    rw [this]
    exact scanFold_snd_ge _ _ _

/-- Appending a record for the requested date with an id above the current
latest makes it the new latest for that date. -/
theorem glp_append {d : String} {L : Ledger} {p : Position} {m : Int}
    (r : Record) (hg : get_latest_position d L = .ok (p, m))
    (hd : r.date = some d) (hlt : m < r.id) (h0 : 0 ≤ r.id) :
    get_latest_position d (L ++ [.ok r]) = .ok (r.positions, r.id) := by
  obtain ⟨hnc, hcase⟩ := glp_ok_inv hg
  have hnc2 : noCorrupt (L ++ [.ok r]) := by
    intro hc
    rcases List.mem_append.mp hc with h1 | h1
    · exact hnc h1
    · simp at h1
  have hrec : recordsOn d (L ++ [.ok r]) = recordsOn d L ++ [r] := by
    rw [recordsOn_append, recordsOn_single_ok, if_pos hd]
  have hstep : scanFold (recordsOn d (L ++ [.ok r])) [] (-1) = (r.positions, r.id) := by
    rw [hrec, scanFold_append]
    rcases hcase with ⟨h0t, heq⟩ | ⟨h0t, prev, hy, heq⟩
    · rw [← heq]
      simp only [scanFold]
      rw [if_pos hlt]
    · have hsnd : (scanFold (recordsOn d L) [] (-1)).2 < r.id := by omega
      simp only [scanFold]
      rw [if_pos hsnd]
  have hfin := glp_today d (L ++ [RawLine.ok r]) hnc2 (by rw [hstep]; exact h0)
  rw [hfin, hstep]

/-! ### Reduction of execute_order and _run_order in the default paper mode -/

theorem execute_order_paper (side : String) (amt : ℚ) (ot : String)
    (t : Ticker) (now : ℚ) (v : VenueOrder) (p : ℚ)
    (hp : get_last_price t = .ok p) :
    execute_order side amt none ot none none t now v =
      .ok (.paper { mode := "paper", symbol := "BTC/USDT", side := side,
                    amount := amt, fill_price := p, order_type := ot,
                    timestamp := now }) := by
  have hpair : strUpper (orDefault none DEFAULT_PAIR) = "BTC/USDT" := by decide
  have hmode : strLower (orDefault none DEFAULT_MODE) ≠ "live" := by decide
  unfold execute_order
  dsimp only
  rw [hp]
  dsimp only
  rw [if_pos hmode, hpair]

/-- Computation law of _run_order once the latest snapshot and the ticker
price are known: the exact branch structure of the source. -/
theorem run_order_eq (side : String) (amt : ℚ) (d : String) (t : Ticker)
    (now : ℚ) (v : VenueOrder) (L : Ledger) (pos0 : Position) (k : Int) (p : ℚ)
    (hg : get_latest_position d L = .ok (pos0, k))
    (hp : get_last_price t = .ok p) :
    _run_order side amt d t now v L =
      (if side = "buy" then
        (if posGet (loadedPositions pos0) "CASH" 0 - p * amt < 0 then
          .ok (.insufficientCash (p * amt) (posGet (loadedPositions pos0) "CASH" 0), L)
         else
          .ok (.ok (posSet (posSet (loadedPositions pos0) "CASH"
                      (posGet (loadedPositions pos0) "CASH" 0 - p * amt)) BASE_SYMBOL
                      (posGet (posSet (loadedPositions pos0) "CASH"
                        (posGet (loadedPositions pos0) "CASH" 0 - p * amt)) BASE_SYMBOL 0 + amt)),
               L ++ [.ok (tradeRecord d (k + 1) side amt p
                      (posSet (posSet (loadedPositions pos0) "CASH"
                        (posGet (loadedPositions pos0) "CASH" 0 - p * amt)) BASE_SYMBOL
                        (posGet (posSet (loadedPositions pos0) "CASH"
                          (posGet (loadedPositions pos0) "CASH" 0 - p * amt)) BASE_SYMBOL 0 + amt))
                      now)]))
       else
        (if posGet (loadedPositions pos0) BASE_SYMBOL 0 < amt then
          .ok (.insufficientBTC (posGet (loadedPositions pos0) BASE_SYMBOL 0) amt, L)
         else
          .ok (.ok (posSet (posSet (loadedPositions pos0) BASE_SYMBOL
                      (posGet (loadedPositions pos0) BASE_SYMBOL 0 - amt)) "CASH"
                      (posGet (posSet (loadedPositions pos0) BASE_SYMBOL
                        (posGet (loadedPositions pos0) BASE_SYMBOL 0 - amt)) "CASH" 0 + p * amt)),
               L ++ [.ok (tradeRecord d (k + 1) side amt p
                      (posSet (posSet (loadedPositions pos0) BASE_SYMBOL
                        (posGet (loadedPositions pos0) BASE_SYMBOL 0 - amt)) "CASH"
                        (posGet (posSet (loadedPositions pos0) BASE_SYMBOL
                          (posGet (loadedPositions pos0) BASE_SYMBOL 0 - amt)) "CASH" 0 + p * amt))
                      now)]))) := by
  unfold _run_order
  rw [hg, hp, execute_order_paper side amt "market" t now v p hp]
  dsimp only
  simp only [loadedPositions, tradeRecord]
  by_cases hs : side = "buy"
  · rw [if_pos hs, if_pos hs]
    by_cases hc : posGet (_ensure_symbol (if pos0 = [] then [("CASH", (0 : ℚ)), (BASE_SYMBOL, (0 : ℚ))] else pos0)) "CASH" 0 - p * amt < 0
    · rw [if_pos hc, if_pos hc]
    · rw [if_neg hc, if_neg hc]
  · rw [if_neg hs, if_neg hs]
    by_cases hc : posGet (_ensure_symbol (if pos0 = [] then [("CASH", (0 : ℚ)), (BASE_SYMBOL, (0 : ℚ))] else pos0)) BASE_SYMBOL 0 < amt
    · rw [if_pos hc, if_pos hc]
    · rw [if_neg hc, if_neg hc]

theorem cash_ne_base : ("CASH" : String) ≠ BASE_SYMBOL := by decide

theorem buyPositions_cash (pos0 : Position) (p amt : ℚ) :
    posGet (buyPositions pos0 p amt) "CASH" 0 = posGet pos0 "CASH" 0 - p * amt := by
  unfold buyPositions
  rw [posGet_posSet_ne _ (Ne.symm cash_ne_base), posGet_posSet_self, posGet_loaded]

theorem buyPositions_base (pos0 : Position) (p amt : ℚ) :
    posGet (buyPositions pos0 p amt) BASE_SYMBOL 0 = posGet pos0 BASE_SYMBOL 0 + amt := by
  unfold buyPositions
  rw [posGet_posSet_self, posGet_posSet_ne _ cash_ne_base, posGet_loaded]

theorem sellPositions_base (pos0 : Position) (p amt : ℚ) :
    posGet (sellPositions pos0 p amt) BASE_SYMBOL 0 = posGet pos0 BASE_SYMBOL 0 - amt := by
  unfold sellPositions
  rw [posGet_posSet_ne _ cash_ne_base, posGet_posSet_self, posGet_loaded]

theorem sellPositions_cash (pos0 : Position) (p amt : ℚ) :
    posGet (sellPositions pos0 p amt) "CASH" 0 = posGet pos0 "CASH" 0 + p * amt := by
  unfold sellPositions
  rw [posGet_posSet_self, posGet_posSet_ne _ (Ne.symm cash_ne_base), posGet_loaded]

/-! ### Branch laws of the settlement -/

theorem run_buy_reject {d : String} {t : Ticker} {L : Ledger} {pos0 : Position}
    {k : Int} {p : ℚ} (amt : ℚ) (now : ℚ) (v : VenueOrder)
    (hg : get_latest_position d L = .ok (pos0, k))
    (hp : get_last_price t = .ok p)
    (hc : posGet pos0 "CASH" 0 - p * amt < 0) :
    _run_order "buy" amt d t now v L =
      .ok (.insufficientCash (p * amt) (posGet pos0 "CASH" 0), L) := by
  have h := run_order_eq "buy" amt d t now v L pos0 k p hg hp
  rw [if_pos rfl] at h
  rw [if_pos (show posGet (loadedPositions pos0) "CASH" 0 - p * amt < 0 by
    rw [posGet_loaded]; exact hc)] at h
  rw [h, posGet_loaded]

theorem run_buy_commit {d : String} {t : Ticker} {L : Ledger} {pos0 : Position}
    {k : Int} {p : ℚ} (amt : ℚ) (now : ℚ) (v : VenueOrder)
    (hg : get_latest_position d L = .ok (pos0, k))
    (hp : get_last_price t = .ok p)
    (hc : ¬ posGet pos0 "CASH" 0 - p * amt < 0) :
    _run_order "buy" amt d t now v L =
      .ok (.ok (buyPositions pos0 p amt),
           L ++ [.ok (tradeRecord d (k + 1) "buy" amt p (buyPositions pos0 p amt) now)]) := by
  have h := run_order_eq "buy" amt d t now v L pos0 k p hg hp
  rw [if_pos rfl] at h
  rw [if_neg (show ¬ posGet (loadedPositions pos0) "CASH" 0 - p * amt < 0 by
    rw [posGet_loaded]; exact hc)] at h
  rw [h]
  rfl

theorem run_sell_reject {side : String} {d : String} {t : Ticker} {L : Ledger}
    {pos0 : Position} {k : Int} {p : ℚ} (amt : ℚ) (now : ℚ) (v : VenueOrder)
    (hside : side ≠ "buy")
    (hg : get_latest_position d L = .ok (pos0, k))
    (hp : get_last_price t = .ok p)
    (hc : posGet pos0 BASE_SYMBOL 0 < amt) :
    _run_order side amt d t now v L =
      .ok (.insufficientBTC (posGet pos0 BASE_SYMBOL 0) amt, L) := by
  have h := run_order_eq side amt d t now v L pos0 k p hg hp
  rw [if_neg hside] at h
  rw [if_pos (show posGet (loadedPositions pos0) BASE_SYMBOL 0 < amt by
    rw [posGet_loaded]; exact hc)] at h
  rw [h, posGet_loaded]

theorem run_sell_commit {side : String} {d : String} {t : Ticker} {L : Ledger}
    {pos0 : Position} {k : Int} {p : ℚ} (amt : ℚ) (now : ℚ) (v : VenueOrder)
    (hside : side ≠ "buy")
    (hg : get_latest_position d L = .ok (pos0, k))
    (hp : get_last_price t = .ok p)
    (hc : ¬ posGet pos0 BASE_SYMBOL 0 < amt) :
    _run_order side amt d t now v L =
      .ok (.ok (sellPositions pos0 p amt),
           L ++ [.ok (tradeRecord d (k + 1) side amt p (sellPositions pos0 p amt) now)]) := by
  have h := run_order_eq side amt d t now v L pos0 k p hg hp
  rw [if_neg hside] at h
  rw [if_neg (show ¬ posGet (loadedPositions pos0) BASE_SYMBOL 0 < amt by
    rw [posGet_loaded]; exact hc)] at h
  rw [h]
  rfl

theorem pyOr_truthy (b : Option ℚ) {a : Option ℚ} (h : truthy a = true) :
    pyOr a b = a := by
  simp [pyOr, h]

theorem pyOr_falsy (b : Option ℚ) {a : Option ℚ} (h : truthy a = false) :
    pyOr a b = b := by
  simp [pyOr, h]

/-! ### Claim C10 -/

/-- C10 counterexample: with all three ticker fields present and equal to 0
(all falsy), get_last_price does not raise: Python `a or b or c` yields the
last operand itself, so the zero from info.lastPrice is returned as a price.
The claim's "raises iff all three fields are falsy or absent" is false. -/
theorem C10_counterexample :
    get_last_price { last := some 0, close := some 0, infoLastPrice := some 0 } = .ok 0 ∧
    get_last_price { last := some 0, close := some 0, infoLastPrice := some 0 } ≠
      .error () := by
  constructor
  · decide
  · decide

/-- C10 (corrected): get_last_price treats a falsy `last` (0 or None/absent)
like a missing one and falls back to `close`, then to info.lastPrice; a
truthy (nonzero) `last` or `close` is returned directly; but the error is
raised exactly when `last` and `close` are falsy AND info.lastPrice is
absent or None — a present info.lastPrice equal to 0 is returned as 0, so
the raise condition is not "all three falsy".  A genuine zero in `last` or
`close` is indeed never returned. -/
theorem C10_fallback_chain (t : Ticker) :
    (get_last_price t = .error () ↔
      truthy t.last = false ∧ truthy t.close = false ∧ t.infoLastPrice = none) ∧
    (∀ q : ℚ, t.last = some q → q ≠ 0 → get_last_price t = .ok q) ∧
    (truthy t.last = false → ∀ q : ℚ, t.close = some q → q ≠ 0 →
      get_last_price t = .ok q) ∧
    (truthy t.last = false → truthy t.close = false → ∀ q : ℚ,
      t.infoLastPrice = some q → get_last_price t = .ok q) := by
  refine ⟨⟨?_, ?_⟩, ?_, ?_, ?_⟩
  · intro h
    unfold get_last_price at h
    cases hl : truthy t.last with
    | false =>
      rw [pyOr_falsy _ hl] at h
      cases hc : truthy t.close with
      | false =>
        rw [pyOr_falsy _ hc] at h
        cases hi : t.infoLastPrice with
        | none => exact ⟨rfl, rfl, rfl⟩
        | some q => rw [hi] at h; simp at h
      | true =>
        rw [pyOr_truthy _ hc] at h
        cases hval : t.close with
        | none => rw [hval] at hc; simp [truthy] at hc
        | some q => rw [hval] at h; simp at h
    | true =>
      rw [pyOr_truthy _ hl, pyOr_truthy _ hl] at h
      cases hval : t.last with
      | none => rw [hval] at hl; simp [truthy] at hl
      | some q => rw [hval] at h; simp at h
  · rintro ⟨hl, hc, hi⟩
    unfold get_last_price
    rw [pyOr_falsy _ hl, pyOr_falsy _ hc, hi]
  · intro q hq hq0
    have ht : truthy t.last = true := by rw [hq]; simp [truthy, hq0]
    unfold get_last_price
    rw [pyOr_truthy _ ht, pyOr_truthy _ ht, hq]
  · intro hl q hq hq0
    have ht : truthy t.close = true := by rw [hq]; simp [truthy, hq0]
    unfold get_last_price
    rw [pyOr_falsy _ hl, pyOr_truthy _ ht, hq]
  · intro hl hc q hq
    unfold get_last_price
    rw [pyOr_falsy _ hl, pyOr_falsy _ hc, hq]

/-- C10 witness: the corrected fallback chain at concrete tickers. -/
theorem C10_fallback_chain_witness :
    get_last_price { last := some 0, close := some 7, infoLastPrice := none } = .ok 7 :=
  (C10_fallback_chain { last := some 0, close := some 7, infoLastPrice := none }).2.2.1
    (by decide) 7 rfl (by norm_num)

/-! ### Claim C8 -/

/-- C8 counterexample: two paper-mode calls with identical side, amount,
symbol, order type and explicit price but made at different times return
different fill records, because the record embeds the time.time() reading in
its timestamp field.  The claim that they "return the same FillRecord" is
false. -/
theorem C8_counterexample :
    execute_order "buy" 1 none "market" (some 30000) none
        { last := none, close := none, infoLastPrice := none } 0 "x" ≠
      execute_order "buy" 1 none "market" (some 30000) none
        { last := none, close := none, infoLastPrice := none } 1 "x" := by
  decide

/-- C8 (corrected): paper-mode execute_order contacts no external venue (its
result does not depend on the venue response, nor on the ticker when an
explicit price is given) and is a pure deterministic function of side,
amount, symbol, order type, price and the clock reading: its result is
exactly the paper FillRecord with fill_price the explicit price (or the last
price when no price is passed) and timestamp equal to the clock reading, so
two calls agree exactly when their clock readings also agree; calls at
different times differ in the timestamp field only. -/
theorem C8_paper_deterministic (side : String) (amt : ℚ) (symbol : Option String)
    (ot : String) (p : ℚ) (mode : Option String) (t1 t2 : Ticker) (now : ℚ)
    (v1 v2 : VenueOrder)
    (hmode : strLower (orDefault mode DEFAULT_MODE) ≠ "live") :
    execute_order side amt symbol ot (some p) mode t1 now v1 =
      .ok (.paper { mode := "paper", symbol := strUpper (orDefault symbol DEFAULT_PAIR),
                    side := side, amount := amt, fill_price := p, order_type := ot,
                    timestamp := now }) ∧
    execute_order side amt symbol ot (some p) mode t1 now v1 =
      execute_order side amt symbol ot (some p) mode t2 now v2 ∧
    (∀ q : ℚ, get_last_price t1 = .ok q →
      execute_order side amt symbol ot none mode t1 now v1 =
        .ok (.paper { mode := "paper", symbol := strUpper (orDefault symbol DEFAULT_PAIR),
                      side := side, amount := amt, fill_price := q, order_type := ot,
                      timestamp := now })) := by
  have key : ∀ (t : Ticker) (v : VenueOrder),
      execute_order side amt symbol ot (some p) mode t now v =
        .ok (.paper { mode := "paper", symbol := strUpper (orDefault symbol DEFAULT_PAIR),
                      side := side, amount := amt, fill_price := p, order_type := ot,
                      timestamp := now }) := by
    intro t v
    unfold execute_order
    dsimp only
    rw [if_pos hmode]
  refine ⟨key t1 v1, ?_, ?_⟩
  · rw [key t1 v1, key t2 v2]
  · intro q hq
    unfold execute_order
    dsimp only
    rw [hq]
    dsimp only
    rw [if_pos hmode]

/-- C8 witness: the corrected determinism statement at concrete inputs. -/
theorem C8_paper_deterministic_witness :
    execute_order "buy" 1 none "market" (some 30000) none
        { last := none, close := none, infoLastPrice := none } 5 "v1" =
      .ok (.paper { mode := "paper", symbol := strUpper (orDefault none DEFAULT_PAIR),
                    side := "buy", amount := 1, fill_price := 30000,
                    order_type := "market", timestamp := 5 }) :=
  (C8_paper_deterministic "buy" 1 none "market" 30000 none
    { last := none, close := none, infoLastPrice := none }
    { last := some 9, close := none, infoLastPrice := none } 5 "v1" "v2"
    (by decide)).1

/-! ### Claim C1 -/

/-- C1 counterexample: for a fresh agent with no ledger file, buy(0.1) at
fill price 50000 does NOT succeed: get_latest_position returns the empty
snapshot, _run_order seeds it with CASH = 0 (not 10000), and the required
cash 5000 exceeds the available 0, so the order is rejected and nothing is
appended.  The second conjunct records that this rejection is not the
success the claim asserts. -/
theorem C1_counterexample :
    buy (1/10) "2024-01-02" { last := some 50000, close := none, infoLastPrice := none }
        0 "" [] = .ok (.insufficientCash 5000 0, []) ∧
    RunResult.insufficientCash 5000 0 ≠
      RunResult.ok [("CASH", 5000), ("BTC", 1/10)] := by
  constructor
  · unfold buy
    rw [if_neg (by norm_num)]
    have hg : get_latest_position "2024-01-02" ([] : Ledger) = .ok ([], -1) := rfl
    have hp : get_last_price
        { last := some 50000, close := none, infoLastPrice := none } = .ok 50000 := rfl
    have h := run_buy_reject (1/10) 0 "" hg hp (by norm_num [posGet])
    rw [h]
    norm_num [posGet]
  · decide

/-- C1 (corrected): a fresh agent with no ledger file starts from the seeded
snapshot CASH = 0 (the starting CASH = 10000 of the scenario cannot occur
for a fresh agent), so buy(0.1) at fill price 50000 is rejected with
required_cash = 5000 and cash_available = 0, the ledger stays empty, and no
record with id 0 or position CASH = 5000, BTC = 0.1 is produced. -/
theorem C1_fresh_buy_rejected (t : Ticker) (now : ℚ) (v : VenueOrder)
    (hp : get_last_price t = .ok 50000) :
    buy (1/10) "2024-01-02" t now v [] = .ok (.insufficientCash 5000 0, []) := by
  unfold buy
  rw [if_neg (by norm_num)]
  have hg : get_latest_position "2024-01-02" ([] : Ledger) = .ok ([], -1) := rfl
  have h := run_buy_reject (1/10) now v hg hp (by norm_num [posGet])
  rw [h]
  norm_num [posGet]

/-- C1 witness: the corrected rejection at a concrete ticker and clock. -/
theorem C1_fresh_buy_rejected_witness :
    buy (1/10) "2024-01-02" { last := none, close := some 50000, infoLastPrice := none }
        3 "venue" [] = .ok (.insufficientCash 5000 0, []) :=
  C1_fresh_buy_rejected { last := none, close := some 50000, infoLastPrice := none }
    3 "venue" (by decide)

/-! ### Claim C2 -/

/-- C2 (confirmed): a buy whose required cash (fill price times amount)
exceeds the loaded snapshot's CASH returns the structured insufficient-cash
dict carrying the required and available amounts, and a sell attempting more
than the held base amount returns the structured insufficient-holdings dict
carrying held and attempted; in both cases the returned ledger equals the
input ledger, so no record is appended and the persisted position is exactly
what it was. -/
theorem C2_reject_atomic (amt : ℚ) (d : String) (t : Ticker) (now : ℚ)
    (v : VenueOrder) (L : Ledger) (pos0 : Position) (k : Int) (p : ℚ)
    (hg : get_latest_position d L = .ok (pos0, k))
    (hp : get_last_price t = .ok p) :
    (posGet pos0 "CASH" 0 < p * amt →
      _run_order "buy" amt d t now v L =
        .ok (.insufficientCash (p * amt) (posGet pos0 "CASH" 0), L)) ∧
    (posGet pos0 BASE_SYMBOL 0 < amt →
      _run_order "sell" amt d t now v L =
        .ok (.insufficientBTC (posGet pos0 BASE_SYMBOL 0) amt, L)) := by
  constructor
  · intro hc
    exact run_buy_reject amt now v hg hp (by linarith)
  · intro hc
    exact run_sell_reject amt now v (by decide) hg hp hc

/-- C2 witness: both rejection branches at concrete inputs. -/
theorem C2_reject_atomic_witness :
    _run_order "buy" 5 "2024-01-02" { last := some 3, close := none, infoLastPrice := none }
        0 "" [RawLine.ok { date := some "2024-01-02", id := 0,
                           positions := [("CASH", 10), ("BTC", 1)],
                           this_action := none, order := none }] =
      .ok (.insufficientCash 15 10,
           [RawLine.ok { date := some "2024-01-02", id := 0,
                         positions := [("CASH", 10), ("BTC", 1)],
                         this_action := none, order := none }]) ∧
    _run_order "sell" 5 "2024-01-02" { last := some 3, close := none, infoLastPrice := none }
        0 "" [RawLine.ok { date := some "2024-01-02", id := 0,
                           positions := [("CASH", 10), ("BTC", 1)],
                           this_action := none, order := none }] =
      .ok (.insufficientBTC 1 5,
           [RawLine.ok { date := some "2024-01-02", id := 0,
                         positions := [("CASH", 10), ("BTC", 1)],
                         this_action := none, order := none }]) := by
  have h := C2_reject_atomic 5 "2024-01-02"
    { last := some 3, close := none, infoLastPrice := none } 0 ""
    [RawLine.ok { date := some "2024-01-02", id := 0,
                  positions := [("CASH", 10), ("BTC", 1)],
                  this_action := none, order := none }]
    [("CASH", 10), ("BTC", 1)] 0 3 (by decide) rfl
  constructor
  · have h1 := h.1 (by norm_num [posGet])
    rw [h1]
    norm_num [posGet]
  · have h2 := h.2 (by decide)
    rw [h2]
    have : posGet [("CASH", (10 : ℚ)), ("BTC", 1)] BASE_SYMBOL 0 = 1 := by decide
    rw [this]

/-! ### Claim C4 -/

/-- C4 (confirmed, over the exact-rational model of Python floats): every
committed settlement moves value only between CASH and the traded symbol at
the recorded fill price: a committed buy sets CASH to CASH - p*amount and
the symbol to symbol + amount, a committed sell (the non-buy branch) sets
the symbol to symbol - amount and CASH to CASH + p*amount, and in both
cases CASH + symbol*p is unchanged. -/
theorem C4_conservation (side : String) (amt : ℚ) (d : String) (t : Ticker)
    (now : ℚ) (v : VenueOrder) (L L2 : Ledger) (pos0 pos2 : Position)
    (k : Int) (p : ℚ)
    (hg : get_latest_position d L = .ok (pos0, k))
    (hp : get_last_price t = .ok p)
    (hrun : _run_order side amt d t now v L = .ok (.ok pos2, L2)) :
    (side = "buy" →
      posGet pos2 "CASH" 0 = posGet pos0 "CASH" 0 - p * amt ∧
      posGet pos2 BASE_SYMBOL 0 = posGet pos0 BASE_SYMBOL 0 + amt) ∧
    (side ≠ "buy" →
      posGet pos2 BASE_SYMBOL 0 = posGet pos0 BASE_SYMBOL 0 - amt ∧
      posGet pos2 "CASH" 0 = posGet pos0 "CASH" 0 + p * amt) ∧
    posGet pos2 "CASH" 0 + posGet pos2 BASE_SYMBOL 0 * p =
      posGet pos0 "CASH" 0 + posGet pos0 BASE_SYMBOL 0 * p := by
  by_cases hs : side = "buy"
  · subst hs
    by_cases hc : posGet pos0 "CASH" 0 - p * amt < 0
    · rw [run_buy_reject amt now v hg hp hc] at hrun
      simp at hrun
    · rw [run_buy_commit amt now v hg hp hc] at hrun
      have hpos : pos2 = buyPositions pos0 p amt := by
        simp only [Except.ok.injEq, Prod.mk.injEq, RunResult.ok.injEq] at hrun
        exact hrun.1.symm
      subst hpos
      refine ⟨fun _ => ⟨buyPositions_cash _ _ _, buyPositions_base _ _ _⟩,
              fun hne => absurd rfl hne, ?_⟩
      rw [buyPositions_cash, buyPositions_base]
      ring
  · by_cases hc : posGet pos0 BASE_SYMBOL 0 < amt
    · rw [run_sell_reject amt now v hs hg hp hc] at hrun
      simp at hrun
    · rw [run_sell_commit amt now v hs hg hp hc] at hrun
      have hpos : pos2 = sellPositions pos0 p amt := by
        simp only [Except.ok.injEq, Prod.mk.injEq, RunResult.ok.injEq] at hrun
        exact hrun.1.symm
      subst hpos
      refine ⟨fun hbuy => absurd hbuy hs,
              fun _ => ⟨sellPositions_base _ _ _, sellPositions_cash _ _ _⟩, ?_⟩
      rw [sellPositions_cash, sellPositions_base]
      ring

/-- C4 witness: conservation across a committed buy of 0.1 BTC at 50000
against a snapshot holding CASH 10000. -/
theorem C4_conservation_witness :
    posGet (buyPositions [("CASH", 10000), ("BTC", 0)] 50000 (1/10)) "CASH" 0 +
      posGet (buyPositions [("CASH", 10000), ("BTC", 0)] 50000 (1/10)) BASE_SYMBOL 0 * 50000 =
    posGet [("CASH", 10000), ("BTC", 0)] "CASH" 0 +
      posGet [("CASH", 10000), ("BTC", 0)] BASE_SYMBOL 0 * 50000 := by
  have hg : get_latest_position "2024-01-02"
      [RawLine.ok { date := some "2024-01-02", id := 0,
                    positions := [("CASH", 10000), ("BTC", 0)],
                    this_action := none, order := none }] =
      .ok ([("CASH", 10000), ("BTC", 0)], 0) := by decide
  have hp : get_last_price { last := some 50000, close := none, infoLastPrice := none } =
      .ok 50000 := rfl
  have hrun := run_buy_commit (1/10) 0 "" hg hp (by norm_num [posGet])
  exact (C4_conservation "buy" (1/10) "2024-01-02"
    { last := some 50000, close := none, infoLastPrice := none } 0 "" _ _
    [("CASH", 10000), ("BTC", 0)] _ 0 50000 hg hp hrun).2.2

/-! ### Claim C5 -/

/-- C5 counterexample: a ledger whose second line is unparseable makes
get_latest_position raise (json.loads has no handler in the scan), instead
of skipping the line and returning the parseable maximum-id record as the
claim asserts. -/
theorem C5_counterexample :
    get_latest_position "2024-01-02"
      [RawLine.ok { date := some "2024-01-02", id := 0, positions := [("CASH", 7)],
                    this_action := none, order := none },
       RawLine.corrupt] = .error () ∧
    get_latest_position "2024-01-02"
      [RawLine.ok { date := some "2024-01-02", id := 0, positions := [("CASH", 7)],
                    this_action := none, order := none },
       RawLine.corrupt] ≠ .ok ([("CASH", 7)], 0) := by
  constructor
  · decide
  · decide

/-- C5 (corrected): the scan skips blank lines but NOT unparseable ones: any
ledger containing an unparseable line makes get_latest_position raise, for
every requested date; removing blank lines never changes the result.  The
function only reads the file (in this model it returns no modified ledger)
and never rewrites it. -/
theorem C5_corrupt_line_raises :
    (∀ (L : Ledger) (d : String), RawLine.corrupt ∈ L →
      get_latest_position d L = .error ()) ∧
    (∀ (L : Ledger) (d : String),
      get_latest_position d (L.filter fun l => decide (l ≠ RawLine.blank)) =
        get_latest_position d L) := by
  constructor
  · intro L d hc
    unfold get_latest_position
    rw [scanLoop_corrupt d L [] (-1) hc]
  · intro L d
    have hscan : ∀ (t : String) (p : Position) (m : Int),
        scanLoop t (L.filter fun l => decide (l ≠ RawLine.blank)) p m =
          scanLoop t L p m := by
      intro t
      induction L with
      | nil => intro p m; rfl
      | cons hd tl ih =>
        intro p m
        cases hd with
        | blank =>
          rw [List.filter_cons_of_neg (by decide)]
          exact ih p m
        | corrupt =>
          rw [List.filter_cons_of_pos (by decide)]
          rfl
        | ok r =>
          rw [List.filter_cons_of_pos (by simp)]
          show scanLoop t (RawLine.ok r :: _) p m = scanLoop t (RawLine.ok r :: tl) p m
          unfold scanLoop
          by_cases hd2 : r.date = some t
          · rw [if_pos hd2, if_pos hd2]
            by_cases hm : m < r.id
            · rw [if_pos hm, if_pos hm]
              exact ih _ _
            · rw [if_neg hm, if_neg hm]
              exact ih _ _
          · rw [if_neg hd2, if_neg hd2]
            exact ih _ _
    unfold get_latest_position
    rw [hscan d [] (-1)]
    cases scanLoop d L [] (-1) with
    | error e => rfl
    | ok pm =>
      dsimp only
      split
      · rfl
      · cases get_yesterday_date d with
        | none => rfl
        | some prev => exact hscan prev [] (-1)

/-- C5 witness: the corrected raise-on-corrupt behavior at a concrete
one-line corrupt ledger. -/
theorem C5_corrupt_line_raises_witness :
    get_latest_position "2024-01-02" [RawLine.corrupt] = .error () :=
  C5_corrupt_line_raises.1 [RawLine.corrupt] "2024-01-02" (List.mem_singleton.mpr rfl)

/-! ### Claim C3 -/

theorem scanFold_mem_le (rs : List Record) (p : Position) (m : Int)
    (r : Record) (hr : r ∈ rs) : r.id ≤ (scanFold rs p m).2 := by
  rw [scanFold_snd]
  exact foldl_max_mem_le _ m r.id (List.mem_map_of_mem _ hr)

theorem scanFold_nonneg (rs : List Record) (hne : rs ≠ [])
    (hids : ∀ r ∈ rs, 0 ≤ r.id) : 0 ≤ (scanFold rs [] (-1)).2 := by
  obtain ⟨r, hr⟩ := List.exists_mem_of_ne_nil rs hne
  exact le_trans (hids r hr) (scanFold_mem_le rs [] (-1) r hr)

theorem scanFold_pick (rs : List Record) (hne : rs ≠ [])
    (hids : ∀ r ∈ rs, 0 ≤ r.id) :
    ∃ r ∈ rs, scanFold rs [] (-1) = (r.positions, r.id) := by
  rcases scanFold_cases rs [] (-1) with h | h
  · exfalso
    have h0 := scanFold_nonneg rs hne hids
    rw [h] at h0
    norm_num at h0
  · exact h

theorem scanFold_snd_maxIdOn (d : String) (L : Ledger) :
    (scanFold (recordsOn d L) [] (-1)).2 = maxIdOn d L := by
  rw [scanFold_snd]
  rfl

/-- C3 (confirmed): get_latest_position returns the positions and id of a
maximum-id record among records of the requested date; when that date has no
records it applies the same selection to the immediately preceding calendar
day only; and when neither date has records it returns the empty position
with id -1 even if records exist for older dates.  Stated for ledgers whose
record ids are nonnegative, which is every id the code itself writes. -/
theorem C3_latest_selection (d prev : String) (L : Ledger)
    (hnc : noCorrupt L) (hy : get_yesterday_date d = some prev)
    (hids : ∀ r ∈ recordsOf L, 0 ≤ r.id) :
    (recordsOn d L ≠ [] →
      ∃ r ∈ recordsOn d L, r.id = maxIdOn d L ∧
        get_latest_position d L = .ok (r.positions, r.id)) ∧
    (recordsOn d L = [] → recordsOn prev L ≠ [] →
      ∃ r ∈ recordsOn prev L, r.id = maxIdOn prev L ∧
        get_latest_position d L = .ok (r.positions, r.id)) ∧
    (recordsOn d L = [] → recordsOn prev L = [] →
      get_latest_position d L = .ok ([], -1)) := by
  have hsub : ∀ d2 : String, ∀ r ∈ recordsOn d2 L, 0 ≤ r.id := by
    intro d2 r hr
    exact hids r (List.mem_of_mem_filter hr)
  refine ⟨?_, ?_, ?_⟩
  · intro hne
    have h0 := scanFold_nonneg _ hne (hsub d)
    obtain ⟨r, hr, heq⟩ := scanFold_pick _ hne (hsub d)
    refine ⟨r, hr, ?_, ?_⟩
    · rw [← scanFold_snd_maxIdOn, heq]
    · rw [glp_today d L hnc h0, heq]
  · intro he hne
    have h0 : ¬ 0 ≤ (scanFold (recordsOn d L) [] (-1)).2 := by
      rw [he]
      norm_num [scanFold]
    obtain ⟨r, hr, heq⟩ := scanFold_pick _ hne (hsub prev)
    refine ⟨r, hr, ?_, ?_⟩
    · rw [← scanFold_snd_maxIdOn, heq]
    · rw [glp_prev d prev L hnc h0 hy, heq]
  · intro he hep
    have h0 : ¬ 0 ≤ (scanFold (recordsOn d L) [] (-1)).2 := by
      rw [he]
      norm_num [scanFold]
    rw [glp_prev d prev L hnc h0 hy, hep]
    rfl

/-- C3 witness: a ledger holding only a record five days old yields the
empty position with id -1 for the requested date. -/
theorem C3_latest_selection_witness :
    get_latest_position "2024-01-10"
      [RawLine.ok { date := some "2024-01-05", id := 3, positions := [("CASH", 42)],
                    this_action := none, order := none }] = .ok ([], -1) :=
  (C3_latest_selection "2024-01-10" "2024-01-09"
    [RawLine.ok { date := some "2024-01-05", id := 3, positions := [("CASH", 42)],
                  this_action := none, order := none }]
    (by intro h; simp at h) (by decide) (by decide)).2.2 (by decide) (by decide)

/-! ### Claim C6: id bookkeeping across operation sequences -/

theorem intRange_succ (s : Int) (len : Nat) :
    intRange s (len + 1) = intRange s len ++ [s + len] := by
  simp [intRange, List.range_succ]

theorem foldl_max_intRange (s : Int) (len : Nat) (hs : 0 ≤ s) :
    (intRange s len).foldl max (-1) = if len = 0 then -1 else s + len - 1 := by
  induction len with
  | zero => rfl
  | succ n ih =>
    rw [intRange_succ, List.foldl_append, ih]
    simp only [List.foldl_cons, List.foldl_nil]
    by_cases hn : n = 0
    · subst hn
      rw [if_pos rfl, if_neg (by omega)]
      rw [max_eq_right (by omega)]
      simp
    · rw [if_neg hn, if_neg (by omega)]
      rw [max_eq_right (by omega)]
      push_cast
      ring

theorem intRange_pairwise (s : Int) (len : Nat) :
    (intRange s len).Pairwise (· < ·) := by
  unfold intRange
  refine List.Pairwise.map _ ?_ (List.pairwise_lt_range len)
  intro a b hab
  omega

theorem idsOn_append_ok (d : String) (r : Record) (L : Ledger) :
    idsOn d (L ++ [.ok r]) =
      if r.date = some d then idsOn d L ++ [r.id] else idsOn d L := by
  unfold idsOn
  rw [recordsOn_append, recordsOn_single_ok]
  by_cases h : r.date = some d
  · rw [if_pos h, if_pos h]
    simp
  · rw [if_neg h, if_neg h]
    simp

theorem idsOn_empty_recordsOn (d : String) (L : Ledger) (h : idsOn d L = []) :
    recordsOn d L = [] := by
  unfold idsOn at h
  exact List.map_eq_nil_iff.mp h

/-- Inversion of one ledger operation: either an exception or a rejection
left the file unchanged, or a record for the operation's date carrying id
latest + 1 was appended. -/
theorem run_order_ledger (side : String) (amt : ℚ) (d : String) (t : Ticker)
    (now : ℚ) (v : VenueOrder) (L : Ledger) (res : RunResult) (L2 : Ledger)
    (h : _run_order side amt d t now v L = .ok (res, L2)) :
    L2 = L ∨ ∃ pos0 k r, get_latest_position d L = .ok (pos0, k) ∧
      r.date = some d ∧ r.id = k + 1 ∧ L2 = L ++ [.ok r] := by
  cases hG : get_latest_position d L with
  | error e =>
    unfold _run_order at h
    rw [hG] at h
    exact Except.noConfusion h
  | ok pm =>
    obtain ⟨pos0, k⟩ := pm
    cases hP : get_last_price t with
    | error e =>
      unfold _run_order at h
      rw [hG] at h
      dsimp only at h
      rw [hP] at h
      exact Except.noConfusion h
    | ok p =>
      rw [run_order_eq side amt d t now v L pos0 k p hG hP] at h
      by_cases hs : side = "buy"
      · rw [if_pos hs] at h
        by_cases hc : posGet (loadedPositions pos0) "CASH" 0 - p * amt < 0
        · rw [if_pos hc] at h
          simp only [Except.ok.injEq, Prod.mk.injEq] at h
          exact Or.inl h.2.symm
        · rw [if_neg hc] at h
          simp only [Except.ok.injEq, Prod.mk.injEq] at h
          exact Or.inr ⟨pos0, k,
            tradeRecord d (k + 1) side amt p (buyPositions pos0 p amt) now,
            rfl, rfl, rfl, h.2.symm⟩
      · rw [if_neg hs] at h
        by_cases hc : posGet (loadedPositions pos0) BASE_SYMBOL 0 < amt
        · rw [if_pos hc] at h
          simp only [Except.ok.injEq, Prod.mk.injEq] at h
          exact Or.inl h.2.symm
        · rw [if_neg hc] at h
          simp only [Except.ok.injEq, Prod.mk.injEq] at h
          exact Or.inr ⟨pos0, k,
            tradeRecord d (k + 1) side amt p (sellPositions pos0 p amt) now,
            rfl, rfl, rfl, h.2.symm⟩

theorem applyOp_cases (L : Ledger) (op : Op) :
    applyOp L op = L ∨
      ∃ pos0 k r, get_latest_position (opDate op) L = .ok (pos0, k) ∧
        r.date = some (opDate op) ∧ r.id = k + 1 ∧ applyOp L op = L ++ [.ok r] := by
  cases op with
  | noTrade d =>
    cases hG : get_latest_position d L with
    | error e =>
      left
      have h1 : add_no_trade_record d L = .error e := by
        unfold add_no_trade_record
        rw [hG]
      unfold applyOp
      dsimp only
      rw [h1]
    | ok pm =>
      obtain ⟨pos, m⟩ := pm
      right
      refine ⟨pos, m, noTradeRecord d (m + 1) pos, hG, rfl, rfl, ?_⟩
      have h1 : add_no_trade_record d L =
          .ok (L ++ [.ok (noTradeRecord d (m + 1) pos)]) := by
        unfold add_no_trade_record
        rw [hG]
        rfl
      unfold applyOp
      dsimp only
      rw [h1]
  | settle side amt d t n v =>
    cases hR : _run_order side amt d t n v L with
    | error e =>
      left
      unfold applyOp
      dsimp only
      rw [hR]
    | ok rl =>
      obtain ⟨res, L2⟩ := rl
      have hcase := run_order_ledger side amt d t n v L res L2 hR
      have happly : applyOp L (.settle side amt d t n v) = L2 := by
        unfold applyOp
        dsimp only
        rw [hR]
      rcases hcase with h1 | ⟨pos0, k, r, hg, hd, hi, h1⟩
      · left
        rw [happly, h1]
      · right
        exact ⟨pos0, k, r, hg, hd, hi, by rw [happly, h1]⟩

theorem maxIdOn_of_run {d : String} {L : Ledger} {s : Int} {len : Nat}
    (hs : 0 ≤ s) (hrun : idsOn d L = intRange s len) :
    maxIdOn d L = if len = 0 then -1 else s + len - 1 := by
  unfold maxIdOn
  rw [hrun]
  exact foldl_max_intRange s len hs

/-- On a ledger satisfying the invariant, the id returned by a successful
get_latest_position for a date with records equals that date's maximum id. -/
theorem glp_k_eq_max {d : String} {L : Ledger} {pos0 : Position} {k : Int}
    (hg : get_latest_position d L = .ok (pos0, k))
    (hids : ∀ r ∈ recordsOf L, 0 ≤ r.id)
    (hne : idsOn d L ≠ []) : k = maxIdOn d L := by
  have hrne : recordsOn d L ≠ [] := by
    intro h
    exact hne (by unfold idsOn; rw [h]; rfl)
  have hsub : ∀ r ∈ recordsOn d L, 0 ≤ r.id := fun r hr =>
    hids r (List.mem_of_mem_filter hr)
  have h0 := scanFold_nonneg _ hrne hsub
  rcases (glp_ok_inv hg).2 with ⟨_, heq⟩ | ⟨habs, _⟩
  · have := congrArg Prod.snd heq
    dsimp only at this
    rw [this, scanFold_snd_maxIdOn]
  · exact absurd h0 habs

/-- On a ledger satisfying the invariant, a date with no records makes
get_latest_position fall back to the preceding day and report its maximum. -/
theorem glp_k_eq_prev_max {d : String} {L : Ledger} {pos0 : Position} {k : Int}
    (hg : get_latest_position d L = .ok (pos0, k))
    (hemp : idsOn d L = []) :
    ∃ prev, get_yesterday_date d = some prev ∧ k = maxIdOn prev L := by
  have hremp := idsOn_empty_recordsOn d L hemp
  rcases (glp_ok_inv hg).2 with ⟨h0, _⟩ | ⟨_, prev, hy, heq⟩
  · rw [hremp] at h0
    norm_num [scanFold] at h0
  · refine ⟨prev, hy, ?_⟩
    have := congrArg Prod.snd heq
    dsimp only at this
    rw [this, scanFold_snd_maxIdOn]

theorem ledgerInv_applyOp (L : Ledger) (op : Op) (h : ledgerInv L) :
    ledgerInv (applyOp L op) := by
  rcases applyOp_cases L op with heq | ⟨pos0, k, r, hg, hdate, hid, heq⟩
  · rw [heq]; exact h
  · rw [heq]
    obtain ⟨hnc, hids, hruns⟩ := h
    have hk : -1 ≤ k := glp_snd_ge hg
    have hr0 : 0 ≤ r.id := by omega
    refine ⟨?_, ?_, ?_⟩
    · intro hc
      rcases List.mem_append.mp hc with h1 | h1
      · exact hnc h1
      · simp at h1
    · intro r2 hr2
      rw [recordsOf_append] at hr2
      rcases List.mem_append.mp hr2 with h1 | h1
      · exact hids r2 h1
      · have : r2 = r := by
          simp [recordsOf] at h1
          exact h1
        rw [this]
        exact hr0
    · intro d2
      by_cases hd2 : r.date = some d2
      · have hdd : d2 = opDate op := by
          rw [hdate] at hd2
          exact (Option.some.inj hd2).symm
        have hg2 : get_latest_position d2 L = .ok (pos0, k) := by
          rw [hdd]
          exact hg
        obtain ⟨s, len, hs, hrun⟩ := hruns d2
        cases len with
        | zero =>
          refine ⟨r.id, 1, hr0, ?_⟩
          rw [idsOn_append_ok d2 r L, if_pos hd2, hrun]
          simp [intRange, List.range_succ]
        | succ n =>
          have hne : idsOn d2 L ≠ [] := by
            rw [hrun, intRange_succ]
            simp
          have hkmax : k = maxIdOn d2 L := glp_k_eq_max hg2 hids hne
          have hmax : maxIdOn d2 L = s + n := by
            rw [maxIdOn_of_run hs hrun, if_neg (by omega)]
            push_cast
            ring
          refine ⟨s, n + 2, hs, ?_⟩
          rw [idsOn_append_ok d2 r L, if_pos hd2, hrun]
          have h22 : intRange s (n + 2) = intRange s (n + 1) ++ [s + ((n : Int) + 1)] := by
            have := intRange_succ s (n + 1)
            rw [this]
            norm_num
          rw [h22]
          congr 1
          rw [hid, hkmax, hmax]
          congr 1
          ring
      · obtain ⟨s, len, hs, hrun⟩ := hruns d2
        refine ⟨s, len, hs, ?_⟩
        rw [idsOn_append_ok d2 r L, if_neg hd2]
        exact hrun

theorem ledgerInv_runOps (ops : List Op) : ledgerInv (runOps ops) := by
  have hnil : ledgerInv [] := by
    refine ⟨by simp [noCorrupt], by simp [recordsOf], fun d => ⟨0, 0, le_refl 0, rfl⟩⟩
  have haux : ∀ (ops2 : List Op) (L : Ledger), ledgerInv L →
      ledgerInv (ops2.foldl applyOp L) := by
    intro ops2
    induction ops2 with
    | nil => intro L h; exact h
    | cons op rest ih => intro L h; exact ih _ (ledgerInv_applyOp L op h)
  exact haux ops [] hnil

/-- C6 (confirmed): on every ledger reachable by a sequence of settlements
and no-trade operations from a fresh agent, the ids of the records sharing
any date form a gap-free strictly increasing run of consecutive integers
starting at a nonnegative value; every operation that appends a record gives
it id latest(date).last_id + 1; when the date already has records that id is
the date's max + 1, and for the first record of a date it is the preceding
calendar day's max id + 1 (which is -1 + 1 = 0 when the preceding day has no
records, i.e. the run starts at 0). -/
theorem C6_monotonic_ids :
    (∀ (ops : List Op) (d : String), ∃ (s : Int) (len : Nat), 0 ≤ s ∧
      idsOn d (runOps ops) = intRange s len ∧
      (idsOn d (runOps ops)).Pairwise (· < ·)) ∧
    (∀ (ops : List Op) (op : Op) (r : Record),
      applyOp (runOps ops) op = runOps ops ++ [.ok r] →
      (∃ pos0 k, get_latest_position (opDate op) (runOps ops) = .ok (pos0, k) ∧
        r.id = k + 1) ∧
      (idsOn (opDate op) (runOps ops) = [] →
        ∃ prev, get_yesterday_date (opDate op) = some prev ∧
          r.id = maxIdOn prev (runOps ops) + 1) ∧
      (idsOn (opDate op) (runOps ops) ≠ [] →
        r.id = maxIdOn (opDate op) (runOps ops) + 1)) := by
  constructor
  · intro ops d
    obtain ⟨-, -, hruns⟩ := ledgerInv_runOps ops
    obtain ⟨s, len, hs, hrun⟩ := hruns d
    exact ⟨s, len, hs, hrun, by rw [hrun]; exact intRange_pairwise s len⟩
  · intro ops op r happ
    have hinv := ledgerInv_runOps ops
    obtain ⟨-, hids, -⟩ := hinv
    rcases applyOp_cases (runOps ops) op with heq | ⟨pos0, k, r2, hg, hdate, hid, heq⟩
    · rw [happ] at heq
      exact absurd heq (by simp)
    · rw [happ] at heq
      have hrr : r2 = r := by
        have := List.append_cancel_left heq.symm
        simp at this
        exact this
      subst hrr
      refine ⟨⟨pos0, k, hg, hid⟩, ?_, ?_⟩
      · intro hemp
        obtain ⟨prev, hy, hk⟩ := glp_k_eq_prev_max hg hemp
        exact ⟨prev, hy, by rw [hid, hk]⟩
      · intro hne
        rw [hid, glp_k_eq_max hg hids hne]

/-- C6 witness: the first no-trade record of a fresh agent gets id 0, the
preceding day's max id (-1) plus one. -/
theorem C6_monotonic_ids_witness :
    ∃ prev, get_yesterday_date "2024-01-02" = some prev ∧
      (noTradeRecord "2024-01-02" 0 []).id = maxIdOn prev (runOps []) + 1 :=
  (C6_monotonic_ids.2 [] (.noTrade "2024-01-02") (noTradeRecord "2024-01-02" 0 [])
    (by decide)).2.1 (by decide)

/-! ### Claim C9: concurrent settlement attempts under the per-agent lock

In the source every settlement runs its whole read-latest / validate /
append body inside `with _position_lock(signature)` (an exclusive flock), so
among N concurrent settlement attempts for one agent the only interleaving
points are lock acquisition and the atomic locked body.  The transition
system below models exactly that: a pending thread may acquire the free
lock (flock blocks otherwise), and the lock holder runs the _run_order body
and releases. -/

theorem sysInv_step {n : Nat} {d : String} {a : Fin n → ℚ} {t : Ticker}
    {now : ℚ} {v : VenueOrder} {L0 : Ledger} {pos0 : Position} {k : Int}
    {p : ℚ} {s s2 : Sys n}
    (hg : get_latest_position d L0 = .ok (pos0, k))
    (hp : get_last_price t = .ok p)
    (haff : ∀ i, p * a i ≤ posGet pos0 "CASH" 0)
    (hpair : ∀ i j, i ≠ j → posGet pos0 "CASH" 0 < p * a i + p * a j)
    (hinv : SysInv d a now L0 pos0 k p s)
    (hstep : Step d a t now v s s2) :
    SysInv d a now L0 pos0 k p s2 := by
  obtain ⟨hlockinv, hphase⟩ := hinv
  cases hstep with
  | acquire i hlock hpend =>
    constructor
    · intro j
      dsimp only
      rw [Function.update_apply]
      constructor
      · intro hj
        by_cases hji : j = i
        · rw [hji]
        · rw [if_neg hji] at hj
          have h1 := (hlockinv j).mp hj
          rw [hlock] at h1
          cases h1
      · intro hl
        have hji : j = i := (Option.some.inj hl).symm
        rw [if_pos hji]
    · rcases hphase with ⟨hL, hnd⟩ | ⟨w, hLw, hw, hothers⟩
      · left
        refine ⟨hL, ?_⟩
        intro j r hj
        dsimp only at hj
        rw [Function.update_apply] at hj
        by_cases hji : j = i
        · rw [if_pos hji] at hj
          cases hj
        · rw [if_neg hji] at hj
          exact hnd j r hj
      · right
        have hiw : i ≠ w := by
          intro h
          rw [h, hw] at hpend
          cases hpend
        refine ⟨w, hLw, ?_, ?_⟩
        · dsimp only
          rw [Function.update_apply, if_neg (Ne.symm hiw)]
          exact hw
        · intro j hj
          dsimp only
          rw [Function.update_apply]
          by_cases hji : j = i
          · rw [if_pos hji]
            right
            left
            rfl
          · rw [if_neg hji]
            exact hothers j hj
  | run i res L2 hlock hhold hrun =>
    have hlockfree : ∀ j, Function.update s.status i (TStatus.done res) j =
        .holding → False := by
      intro j hj
      rw [Function.update_apply] at hj
      by_cases hji : j = i
      · rw [if_pos hji] at hj
        cases hj
      · rw [if_neg hji] at hj
        have h1 := (hlockinv j).mp hj
        rw [hlock] at h1
        exact hji (Option.some.inj h1).symm
    rcases hphase with ⟨hL, hnd⟩ | ⟨w, hLw, hw, hothers⟩
    · have hC : ¬ posGet pos0 "CASH" 0 - p * a i < 0 := by
        have := haff i
        linarith
      have hcommit := run_buy_commit (a i) now v hg hp hC
      rw [hL, hcommit] at hrun
      simp only [Except.ok.injEq, Prod.mk.injEq] at hrun
      obtain ⟨hres, hL2⟩ := hrun
      constructor
      · intro j
        dsimp only
        constructor
        · intro hj
          exact absurd hj (fun h => hlockfree j h)
        · intro hl
          cases hl
      · right
        refine ⟨i, ?_, ?_, ?_⟩
        · dsimp only
          rw [← hL2]
        · dsimp only
          rw [Function.update_apply, if_pos rfl, ← hres]
        · intro j hj
          dsimp only
          rw [Function.update_apply, if_neg hj]
          cases hsj : s.status j with
          | pending => exact Or.inl rfl
          | holding => exact Or.inr (Or.inl rfl)
          | done r => exact absurd hsj (hnd j r)
    · have hiw : i ≠ w := by
        intro h
        rw [h, hw] at hhold
        cases hhold
      have hk1 : -1 ≤ k := glp_snd_ge hg
      have hg1 : get_latest_position d (L0 ++ [.ok (tradeRecord d (k + 1) "buy"
          (a w) p (buyPositions pos0 p (a w)) now)]) =
          .ok (buyPositions pos0 p (a w), k + 1) :=
        glp_append (tradeRecord d (k + 1) "buy" (a w) p (buyPositions pos0 p (a w)) now)
          hg rfl (show k < k + 1 by omega) (show (0 : Int) ≤ k + 1 by omega)
      have hrej : posGet (buyPositions pos0 p (a w)) "CASH" 0 - p * a i < 0 := by
        rw [buyPositions_cash]
        have := hpair i w hiw
        linarith
      have hreject := run_buy_reject (a i) now v hg1 hp hrej
      rw [hLw, hreject] at hrun
      simp only [Except.ok.injEq, Prod.mk.injEq] at hrun
      obtain ⟨hres, hL2⟩ := hrun
      constructor
      · intro j
        dsimp only
        constructor
        · intro hj
          exact absurd hj (fun h => hlockfree j h)
        · intro hl
          cases hl
      · right
        refine ⟨w, ?_, ?_, ?_⟩
        · dsimp only
          rw [← hL2]
        · dsimp only
          rw [Function.update_apply, if_neg (Ne.symm hiw)]
          exact hw
        · intro j hj
          dsimp only
          rw [Function.update_apply]
          by_cases hji : j = i
          · rw [if_pos hji]
            right
            right
            rw [← hres, buyPositions_cash, hji]
          · rw [if_neg hji]
            exact hothers j hj

theorem sysInv_reach {n : Nat} {d : String} {a : Fin n → ℚ} {t : Ticker}
    {now : ℚ} {v : VenueOrder} {L0 : Ledger} {pos0 : Position} {k : Int}
    {p : ℚ} {s : Sys n}
    (hg : get_latest_position d L0 = .ok (pos0, k))
    (hp : get_last_price t = .ok p)
    (haff : ∀ i, p * a i ≤ posGet pos0 "CASH" 0)
    (hpair : ∀ i j, i ≠ j → posGet pos0 "CASH" 0 < p * a i + p * a j)
    (hreach : Reach d a t now v L0 s) :
    SysInv d a now L0 pos0 k p s := by
  induction hreach with
  | init =>
    constructor
    · intro j
      constructor
      · intro hj
        cases hj
      · intro hl
        cases hl
    · left
      refine ⟨rfl, ?_⟩
      intro j r hj
      cases hj
  | step hr hstep ih => exact sysInv_step hg hp haff hpair ih hstep

/-- C9 (confirmed): settlements for one agent are serialized by the
per-agent exclusive lock held across the whole read-latest / validate /
append body, modelled by the Step system.  Under N concurrent settlement
attempts with cash sufficient for any single one but no two of them, every
completed execution has exactly one winner: one thread committed the single
appended record (with the fresh id latest + 1) and every other thread was
rejected with the structured insufficient-cash result against the winner's
remaining balance — no colliding ids, lost updates, or partial records. -/
theorem C9_mutual_exclusion {n : Nat} (d : String) (a : Fin n → ℚ) (t : Ticker)
    (now : ℚ) (v : VenueOrder) (L0 : Ledger) (pos0 : Position) (k : Int)
    (p : ℚ) (s : Sys n)
    (hn : 0 < n)
    (hg : get_latest_position d L0 = .ok (pos0, k))
    (hp : get_last_price t = .ok p)
    (haff : ∀ i, p * a i ≤ posGet pos0 "CASH" 0)
    (hpair : ∀ i j, i ≠ j → posGet pos0 "CASH" 0 < p * a i + p * a j)
    (hreach : Reach d a t now v L0 s)
    (hdone : ∀ i, ∃ r, s.status i = .done r) :
    ∃ w : Fin n,
      s.ledger = L0 ++ [.ok (tradeRecord d (k + 1) "buy" (a w) p
        (buyPositions pos0 p (a w)) now)] ∧
      s.status w = .done (.ok (buyPositions pos0 p (a w))) ∧
      ∀ j, j ≠ w → s.status j = .done (.insufficientCash (p * a j)
        (posGet pos0 "CASH" 0 - p * a w)) := by
  obtain ⟨hlockinv, hphase⟩ := sysInv_reach hg hp haff hpair hreach
  rcases hphase with ⟨hL, hnd⟩ | ⟨w, hLw, hw, hothers⟩
  · exfalso
    obtain ⟨r, hr⟩ := hdone ⟨0, hn⟩
    exact hnd _ r hr
  · refine ⟨w, hLw, hw, ?_⟩
    intro j hj
    rcases hothers j hj with h1 | h1 | h1
    · obtain ⟨r, hr⟩ := hdone j
      rw [h1] at hr
      cases hr
    · obtain ⟨r, hr⟩ := hdone j
      rw [h1] at hr
      cases hr
    · exact h1

/-- C9 witness: a complete two-thread run (acquire, commit, acquire, reject)
with cash 150 and two buys costing 100 each ends with exactly one committed
record and one structured rejection. -/
theorem C9_mutual_exclusion_witness :
    ∃ w : Fin 2,
      ({ ledger := c9Ledger0 ++ [RawLine.ok c9Rec], lock := none,
         status := c9Status } : Sys 2).ledger =
        c9Ledger0 ++ [RawLine.ok (tradeRecord "2024-01-02" (0 + 1) "buy" 1 100
          (buyPositions [("CASH", 150), ("BTC", 0)] 100 1) 0)] ∧
      ({ ledger := c9Ledger0 ++ [RawLine.ok c9Rec], lock := none,
         status := c9Status } : Sys 2).status w =
        .done (.ok (buyPositions [("CASH", 150), ("BTC", 0)] 100 1)) ∧
      ∀ j, j ≠ w →
        ({ ledger := c9Ledger0 ++ [RawLine.ok c9Rec], lock := none,
           status := c9Status } : Sys 2).status j =
          .done (.insufficientCash (100 * 1)
            (posGet [("CASH", 150), ("BTC", 0)] "CASH" 0 - 100 * 1)) := by
  have hg : get_latest_position "2024-01-02" c9Ledger0 =
      .ok ([("CASH", 150), ("BTC", 0)], 0) := by decide
  have hp : get_last_price { last := some 100, close := none, infoLastPrice := none } =
      .ok 100 := rfl
  have hcommit := run_buy_commit 1 0 "" hg hp (by norm_num [posGet])
  have hg1 : get_latest_position "2024-01-02" (c9Ledger0 ++ [RawLine.ok c9Rec]) =
      .ok (buyPositions [("CASH", 150), ("BTC", 0)] 100 1, 0 + 1) :=
    glp_append (tradeRecord "2024-01-02" (0 + 1) "buy" 1 100
        (buyPositions [("CASH", 150), ("BTC", 0)] 100 1) 0)
      hg rfl (show (0 : Int) < 0 + 1 by omega) (show (0 : Int) ≤ 0 + 1 by omega)
  have hreject := run_buy_reject 1 0 "" hg1 hp
    (by rw [buyPositions_cash]; norm_num [posGet])
  rw [buyPositions_cash] at hreject
  have s0def : Reach "2024-01-02" (fun _ : Fin 2 => (1 : ℚ))
      { last := some 100, close := none, infoLastPrice := none } 0 "" c9Ledger0
      { ledger := c9Ledger0, lock := none, status := fun _ => .pending } :=
    Reach.init
  have s1r := Reach.step s0def (Step.acquire 0 rfl rfl)
  have s2r := Reach.step s1r (Step.run 0
    (.ok (buyPositions [("CASH", 150), ("BTC", 0)] 100 1))
    (c9Ledger0 ++ [RawLine.ok c9Rec]) rfl rfl hcommit)
  have s3r := Reach.step s2r (Step.acquire 1 rfl rfl)
  have s4r := Reach.step s3r (Step.run 1
    (.insufficientCash (100 * 1) (posGet [("CASH", 150), ("BTC", 0)] "CASH" 0 - 100 * 1))
    (c9Ledger0 ++ [RawLine.ok c9Rec]) rfl rfl hreject)
  exact C9_mutual_exclusion "2024-01-02" (fun _ : Fin 2 => (1 : ℚ))
    { last := some 100, close := none, infoLastPrice := none } 0 "" c9Ledger0
    [("CASH", 150), ("BTC", 0)] 0 100 _ (by omega) hg hp
    (by intro i; norm_num [posGet])
    (by intro i j hij; norm_num [posGet])
    s4r
    (by
      intro i
      fin_cases i
      · exact ⟨_, rfl⟩
      · exact ⟨_, rfl⟩)

/-! ### Claim C7 -/

/-- C7 (confirmed): from any ledger whose latest snapshot for the date is
pos0 with maximum id m, two consecutive add_no_trade_record calls append two
records, with ids m+1 and m+2, whose positions fields are both exactly pos0,
the snapshot that existed before the first call. -/
theorem C7_no_trade_idempotent (d : String) (L : Ledger) (pos0 : Position)
    (m : Int) (hg : get_latest_position d L = .ok (pos0, m)) :
    add_no_trade_record d L = .ok (L ++ [.ok (noTradeRecord d (m + 1) pos0)]) ∧
    add_no_trade_record d (L ++ [.ok (noTradeRecord d (m + 1) pos0)]) =
      .ok (L ++ [.ok (noTradeRecord d (m + 1) pos0),
                 .ok (noTradeRecord d (m + 2) pos0)]) := by
  constructor
  · unfold add_no_trade_record
    rw [hg]
    rfl
  · have hm : -1 ≤ m := glp_snd_ge hg
    have h2 := glp_append (noTradeRecord d (m + 1) pos0) hg rfl
      (show m < m + 1 by omega) (show (0 : Int) ≤ m + 1 by omega)
    unfold add_no_trade_record
    rw [h2]
    simp [noTradeRecord]
    omega

/-- C7 witness: double no-trade on a concrete one-record ledger. -/
theorem C7_no_trade_idempotent_witness :
    add_no_trade_record "2024-01-02"
      [RawLine.ok { date := some "2024-01-02", id := 0,
                    positions := [("CASH", 10000), ("BTC", 0)],
                    this_action := none, order := none }] =
      .ok ([RawLine.ok { date := some "2024-01-02", id := 0,
                         positions := [("CASH", 10000), ("BTC", 0)],
                         this_action := none, order := none }] ++
           [.ok (noTradeRecord "2024-01-02" 1 [("CASH", 10000), ("BTC", 0)])]) :=
  (C7_no_trade_idempotent "2024-01-02"
    [RawLine.ok { date := some "2024-01-02", id := 0,
                  positions := [("CASH", 10000), ("BTC", 0)],
                  this_action := none, order := none }]
    [("CASH", 10000), ("BTC", 0)] 0 (by decide)).1

end AITrader
